import Mathlib

/-!
Verification development for the V4L2 capture-device core
(src/src/CaptureDevice.cpp): a fixed pool of frame buffers kept in a
newest-first deque (m_timelySortedBuffers), a capture thread that claims the
oldest unreferenced buffer, fills it and republishes it at the front, reader
borrow/release with per-buffer reader counts, a "newer than T" query, the
lifecycle operations init/finish, the driver-format sanitation in init, and
the capture-period estimator.

Buffers are heap objects addressed by pointers; the deque stores pointers and
reader counts are mutated through them.  The embedding models pointer
identities as natural numbers and the mutable per-buffer fields (readerCount,
time) as stores, i.e. functions from identity to value.
-/

/-- struct timespec: seconds and nanoseconds, both signed integers
(time_t / long). -/
structure Timespec where
  sec : Int
  nsec : Int
deriving DecidableEq

/-- Modelled from the spec: the Buffer struct declaration lives in
CaptureDevice.hpp, which is not among the sources; the spec describes a
buffer as carrying "an integer reader count ≥ 0" whose going negative is a
fatal assert, so the reader count is a signed integer (the assert
readerCount >= 0 in unlock would be vacuous on an unsigned type). -/
abbrev ReaderCount : Type := Int

/-- Strict lexicographic "newer than": t is strictly newer than u.  This is
the comparison the spec describes for count_newer_than. -/
def tsNewer (t u : Timespec) : Prop :=
  u.sec < t.sec ∨ (u.sec = t.sec ∧ u.nsec < t.nsec)

instance (t u : Timespec) : Decidable (tsNewer t u) := by
  unfold tsNewer; exact inferInstance

/-- Lexicographic "not newer", i.e. t ≤ u. -/
def tsLe (t u : Timespec) : Prop :=
  t.sec < u.sec ∨ (t.sec = u.sec ∧ t.nsec ≤ u.nsec)

instance (t u : Timespec) : Decidable (tsLe t u) := by
  unfold tsLe; exact inferInstance

/-- The pool state visible under m_timelySortedBuffersMutex: the newest-first
deque of buffer identities, the per-buffer reader-count store, the per-buffer
timestamp store, and the buffer (if any) currently removed by the capture
thread for filling. -/
structure PoolState where
  seq : List Nat
  readerCount : Nat → ReaderCount
  time : Nat → Timespec
  claimed : Option Nat

/-- CaptureDevice::lockFirstNBuffers, the loop body: walk the deque from the
front while fewer than n buffers are taken, pushing each visited buffer onto
the result and incrementing its reader count through the pointer.  Returns
the collected references and the updated reader-count store. -/
def lockFirstNBuffersAux : List Nat → Nat → (Nat → Int) → List Nat × (Nat → Int)
  | _, 0, rc => ([], rc)
  | [], _ + 1, rc => ([], rc)
  | b :: rest, n + 1, rc =>
    let rc1 : Nat → Int := fun x => if x = b then rc x + 1 else rc x
    let r := lockFirstNBuffersAux rest n rc1
    (b :: r.1, r.2)

/-- CaptureDevice::lockFirstNBuffers on a pool state: the deque itself is not
modified, only reader counts are. -/
def lockFirstNBuffers (s : PoolState) (n : Nat) : List Nat × PoolState :=
  let r := lockFirstNBuffersAux s.seq n s.readerCount
  (r.1, { s with readerCount := r.2 })

/-- CaptureDevice::unlock, inner loop: for one released reference r, scan the
whole deque; every entry whose pointer equals r has its reader count
decremented, and assert(readerCount >= 0) fires (bad := true) if the count
just went negative. -/
def unlockScan : List Nat → Nat → (Nat → Int) → Bool → (Nat → Int) × Bool
  | [], _, rc, bad => (rc, bad)
  | b :: rest, r, rc, bad =>
    if b = r then
      let rc1 : Nat → Int := fun x => if x = b then rc x - 1 else rc x
      unlockScan rest r rc1 (bad || decide (rc1 b < 0))
    else
      unlockScan rest r rc bad

/-- CaptureDevice::unlock, outer loop: process each released reference in
order with unlockScan. -/
def unlockRefs (seq : List Nat) : List Nat → (Nat → Int) → Bool → (Nat → Int) × Bool
  | [], rc, bad => (rc, bad)
  | r :: rs, rc, bad =>
    let p := unlockScan seq r rc bad
    unlockRefs seq rs p.1 p.2

/-- CaptureDevice::newerBuffersAvailable: walk the deque from the front; break
at the first entry with (time.tv_sec < newerThan.tv_sec) or
(time.tv_sec == newerThan.tv_sec and time.tv_nsec <= newerThan.tv_nsec);
otherwise count the entry and continue. -/
def newerBuffersAvailableAux (time : Nat → Timespec) (newerThan : Timespec) :
    List Nat → Nat
  | [] => 0
  | b :: rest =>
    if (time b).sec < newerThan.sec ∨
        ((time b).sec = newerThan.sec ∧ (time b).nsec ≤ newerThan.nsec) then
      0
    else
      newerBuffersAvailableAux time newerThan rest + 1

/-- CaptureDevice::newerBuffersAvailable on a pool state. -/
def newerBuffersAvailable (s : PoolState) (newerThan : Timespec) : Nat :=
  newerBuffersAvailableAux s.time newerThan s.seq

/-- Spec-side count for count_newer_than: the length of the maximal prefix of
the ordering whose entries' timestamps strictly exceed the threshold,
comparing (seconds, nanoseconds) lexicographically. -/
def specNewerCount (s : PoolState) (newerThan : Timespec) : Nat :=
  (s.seq.takeWhile (fun b => decide (tsNewer (s.time b) newerThan))).length

/-! ## The capture thread iteration (CaptureDevice::captureThread)

One iteration of the while loop, after the readiness select has returned:
lock the mutex; if the back buffer's reader count is positive, log and
`continue` — the source does NOT unlock the mutex on this path; otherwise
pop the back buffer, unlock, stamp it with the current time, read the device
into it, relock, push it to the front, unlock.  The mutex is std::mutex
(non-recursive): calling lock() on a mutex the same thread already holds does
not return (undefined behavior, in practice a self-deadlock), modeled as the
`deadlock` outcome. -/

/-- Pool state plus whether the capture thread currently holds
m_timelySortedBuffersMutex when the iteration begins. -/
structure CaptureState where
  seq : List Nat
  readerCount : Nat → ReaderCount
  time : Nat → Timespec
  lockHeld : Bool

/-- Outcome of one capture-loop iteration. -/
inductive IterOutcome where
  | deadlock
  | emptyPool
  | retry (s : CaptureState)
  | published (s : CaptureState)

/-- One iteration of CaptureDevice::captureThread's loop body (readiness wait
already satisfied, read successful, `now` the clock value taken before the
read).  back() on an empty deque is undefined in C++ and surfaces as the
explicit emptyPool outcome. -/
def captureIter (s : CaptureState) (now : Timespec) : IterOutcome :=
  if s.lockHeld then
    IterOutcome.deadlock
  else
    match s.seq.getLast? with
    | none => IterOutcome.emptyPool
    | some b =>
      if 0 < s.readerCount b then
        IterOutcome.retry { s with lockHeld := true }
      else
        IterOutcome.published
          { s with
            seq := b :: s.seq.dropLast,
            time := fun x => if x = b then now else s.time x,
            lockHeld := false }

/-! ## Interleaved pool operations

Operation-granularity transition system over PoolState: reader calls
(lockFirstNBuffers, unlock, newerBuffersAvailable) and the two halves of a
capture iteration (claim of the back buffer before the device read, publish
at the front after it).  Each operation's effect on the deque and the stores
is the source's effect under the mutex. -/

inductive PoolOp where
  | borrow (n : Nat)
  | release (refs : List Nat)
  | countNewer (t : Timespec)
  | claim
  | publish (t : Timespec)

/-- Effect of one operation on the pool state.  An inapplicable operation
(claim while a claim is in flight or while the back buffer is referenced,
publish with nothing claimed) leaves the state unchanged. -/
def stepOp (s : PoolState) : PoolOp → PoolState
  | PoolOp.borrow n => (lockFirstNBuffers s n).2
  | PoolOp.release refs =>
    { s with readerCount := (unlockRefs s.seq refs s.readerCount false).1 }
  | PoolOp.countNewer _ => s
  | PoolOp.claim =>
    match s.claimed with
    | some _ => s
    | none =>
      match s.seq.getLast? with
      | none => s
      | some b =>
        if 0 < s.readerCount b then s
        else { s with seq := s.seq.dropLast, claimed := some b }
  | PoolOp.publish t =>
    match s.claimed with
    | none => s
    | some b =>
      { s with
        seq := b :: s.seq,
        time := fun x => if x = b then t else s.time x,
        claimed := none }

/-- Apply a list of operations in order. -/
def applyOps (s : PoolState) : List PoolOp → PoolState
  | [] => s
  | op :: ops => applyOps (stepOp s op) ops

/-- The sentinel timestamp init stamps every fresh buffer with:
numeric_limits<time_t>::min() seconds (time_t is 64-bit signed), 0 nsec. -/
def tsSentinel : Timespec := ⟨-(2 ^ 63), 0⟩

/-- Pool state right after init allocated the buffers (lines 214-224): the
deque holds the freshly allocated identities, reader counts 0, sentinel
timestamps, nothing claimed. -/
def initPool (ids : List Nat) : PoolState :=
  { seq := ids, readerCount := fun _ => 0, time := fun _ => tsSentinel,
    claimed := none }

/-- All buffer entries currently accounted for: those in the deque plus the
one (if any) the capture thread holds for filling. -/
def poolEntries (s : PoolState) : List Nat :=
  s.seq ++ s.claimed.toList

/-! ## Session lifecycle (CaptureDevice::init / CaptureDevice::finish)

The fields of CaptureDevice that init and finish touch.  m_buffers is the
std::list of Buffer objects (identities, front = most recently pushed);
m_timelySortedBuffers is the deque of pointers into it.  Fresh buffer
identities are minted from nextId, mirroring heap allocation. -/

structure Session where
  fileDescriptor : Int
  captureThreadRunning : Bool
  buffers : List Nat
  bufferSize : Nat
  timelySorted : List Nat
  nextId : Nat

/-- CaptureDevice::finish: stop the capture thread if m_captureThread != 0,
close the device if m_fileDescriptor != -1 (setting it to -1), free and clear
m_buffers if nonempty, zero m_bufferSize.  m_timelySortedBuffers is not
touched. -/
def finish (s : Session) : Session :=
  let s1 := if s.captureThreadRunning then { s with captureThreadRunning := false } else s
  let s2 := if s1.fileDescriptor ≠ -1 then { s1 with fileDescriptor := -1 } else s1
  let s3 := if s2.buffers ≠ [] then { s2 with buffers := [] } else s2
  { s3 with bufferSize := 0 }

/-- The buffer-allocation loop of CaptureDevice::init (lines 214-224): for
each of buffersCount iterations, push_front a fresh Buffer onto m_buffers and
push_back its pointer onto m_timelySortedBuffers. -/
def allocBuffers : Session → Nat → Session
  | s, 0 => s
  | s, n + 1 =>
    allocBuffers
      { s with
        buffers := s.nextId :: s.buffers,
        timelySorted := s.timelySorted ++ [s.nextId],
        nextId := s.nextId + 1 } n

/-- The n fresh identities minted starting from id i. -/
def mintedIds : Nat → Nat → List Nat
  | _, 0 => []
  | i, n + 1 => i :: mintedIds (i + 1) n

/-! ## Buggy-driver sanitation in CaptureDevice::init (lines 203-212)

fmt.fmt.pix fields are __u32 and the arithmetic is C unsigned int
arithmetic, i.e. modulo 2^32.  Input: device-returned width, height,
bytesperline (line stride) and sizeimage; output: the sanitized
(bytesperline, sizeimage); m_bufferSize is set to the sanitized sizeimage
and each buffer is malloc'd with exactly that capacity. -/

def M32 : Nat := 2 ^ 32

/-- The sanitation block:
min := width * 2; if bytesperline < min then bytesperline := min;
min := bytesperline * height; if sizeimage < min then sizeimage := min. -/
def sanitizeFormat (w h s z : Nat) : Nat × Nat :=
  let min1 := w * 2 % M32
  let s1 := if s < min1 then min1 else s
  let min2 := s1 * h % M32
  let z1 := if z < min2 then min2 else z
  (s1, z1)

/-- Capacities of the buffersCount buffers init then mallocs: each gets
m_bufferSize = sanitized sizeimage bytes. -/
def allocCapacities (buffersCount : Nat) (w h s z : Nat) : List Nat :=
  List.replicate buffersCount (sanitizeFormat w h s z).2

/-! ## Period estimator (CaptureDevice::determineCapturePeriodThread)

The arithmetic tail of the thread (lines 644-668), on the recorded
timestamps.  double arithmetic is idealized as exact rationals; timestamps
are already converted to seconds (tv_sec + tv_nsec/1e9).  The final
standard deviation is sqrt of addedSquares/size; the square root is order-
and injectivity-preserving on nonnegatives, so the development states the
pre-sqrt quantities. -/

/-- Inter-arrival intervals: for a from begin to end()-1, push back(a+1) -
a, i.e. differences of consecutive timestamps. -/
def intervalsOf : List ℚ → List ℚ
  | [] => []
  | [_] => []
  | a :: b :: rest => (b - a) :: intervalsOf (b :: rest)

/-- mean := (sum of intervals) / intervals.size(). -/
def meanOf (intervals : List ℚ) : ℚ :=
  intervals.foldl (· + ·) 0 / intervals.length

/-- The source's addedSquares loop: `addedSquares = ((*a - mean) * (*a -
mean));` — plain assignment, so each iteration overwrites the accumulator
and only the last interval's squared deviation survives. -/
def codeAddedSquares (intervals : List ℚ) (mean : ℚ) : ℚ :=
  intervals.foldl (fun _ a => (a - mean) * (a - mean)) 0

/-- The sum of squared deviations the spec describes: every interval
contributes (interval - mean)^2. -/
def specSumSquares (intervals : List ℚ) (mean : ℚ) : ℚ :=
  intervals.foldl (fun acc a => acc + (a - mean) * (a - mean)) 0

/-- The quantity under the square root in the source's standardDeviation:
addedSquares / intervals.size(). -/
def codeVariance (times : List ℚ) : ℚ :=
  let intervals := intervalsOf times
  codeAddedSquares intervals (meanOf intervals) / intervals.length

/-- The quantity under the square root per the spec: (1/k) * sum over all
intervals of (interval - mean)^2. -/
def specVariance (times : List ℚ) : ℚ :=
  let intervals := intervalsOf times
  specSumSquares intervals (meanOf intervals) / intervals.length

/-- The mean the source returns (ret->first). -/
def codeMean (times : List ℚ) : ℚ :=
  meanOf (intervalsOf times)

/-! ## Borrow/release traces (matched-discipline reader behavior)

Traces of lockFirstNBuffers / unlock calls against a fixed deque, tracking
the multiset of currently outstanding borrowed references.  A trace is
disciplined when every unlock call releases a sub-multiset of the references
currently outstanding (each release matches earlier borrows). -/

inductive RWOp where
  | borrow (n : Nat)
  | release (refs : List Nat)

structure RWState where
  seq : List Nat
  readerCount : Nat → ReaderCount
  outstanding : List Nat
  bad : Bool

/-- Effect of one reader call: borrow n runs lockFirstNBuffers and adds the
returned references to the outstanding multiset; release refs runs unlock
(the bad flag records any fired assert) and removes one occurrence of each
released reference. -/
def applyRW (st : RWState) : RWOp → RWState
  | RWOp.borrow n =>
    let r := lockFirstNBuffersAux st.seq n st.readerCount
    { st with readerCount := r.2, outstanding := st.outstanding ++ r.1 }
  | RWOp.release refs =>
    let p := unlockRefs st.seq refs st.readerCount st.bad
    { st with
      readerCount := p.1,
      outstanding := List.diff st.outstanding refs,
      bad := p.2 }

def applyRWs (st : RWState) : List RWOp → RWState
  | [] => st
  | op :: ops => applyRWs (applyRW st op) ops

/-- refs is a sub-multiset of out. -/
def subCount (refs out : List Nat) : Bool :=
  refs.all (fun r => decide (refs.count r ≤ out.count r))

/-- The trace only ever releases references it still holds. -/
def disciplined (st : RWState) : List RWOp → Bool
  | [] => true
  | RWOp.borrow n :: ops => disciplined (applyRW st (RWOp.borrow n)) ops
  | RWOp.release refs :: ops =>
    subCount refs st.outstanding && disciplined (applyRW st (RWOp.release refs)) ops

/-- Reader/writer state right after init: all reader counts zero, nothing
outstanding, no assert fired. -/
def initRW (seq : List Nat) : RWState :=
  { seq := seq, readerCount := fun _ => 0, outstanding := [], bad := false }

/-- The reader/writer invariant tied to a fixed deque: the deque is
unchanged, no assert has fired, every outstanding reference is a pool entry,
and every buffer's reader count equals the number of outstanding borrows of
it. -/
def rwInv (seq : List Nat) (st : RWState) : Prop :=
  st.seq = seq ∧ st.bad = false ∧ (∀ x ∈ st.outstanding, x ∈ seq) ∧
  ∀ x, st.readerCount x = (st.outstanding.count x : Int)

/-! ## Concrete states used by witnesses and counterexamples -/

/-- A pool of three buffers after the capture loop published timestamps
t1 < t2 < t3: identities 3 (stamped ⟨3,0⟩, newest, at the front), 2
(stamped ⟨2,0⟩), 1 (stamped ⟨1,0⟩, oldest, at the back). -/
def demoPool : PoolState :=
  { seq := [3, 2, 1], readerCount := fun _ => 0,
    time := fun b => ⟨Int.ofNat b, 0⟩, claimed := none }

/-- A two-buffer capture state in which the oldest (back) buffer, identity 1,
is held by a reader (reader count 1) and the mutex is free. -/
def contendedState : CaptureState :=
  { seq := [0, 1], readerCount := fun b => if b = 1 then 1 else 0,
    time := fun _ => tsSentinel, lockHeld := false }

/-- The same state after the contention branch ran: the source's `continue`
left the mutex locked. -/
def contendedLocked : CaptureState :=
  { contendedState with lockHeld := true }

/-- A disciplined demo trace: borrow the newest buffer, then release it. -/
def demoRWOps : List RWOp :=
  [RWOp.borrow 1, RWOp.release [5]]

/-! # Theorems -/

/-! ## count_newer_than (C8, C9) -/

theorem newerAux_eq_takeWhile (time : Nat → Timespec) (T : Timespec) (l : List Nat) :
    newerBuffersAvailableAux time T l =
      (l.takeWhile (fun b => decide (tsNewer (time b) T))).length := by
  induction l with
  | nil => rfl
  | cons b rest ih =>
    by_cases h : (time b).sec < T.sec ∨ ((time b).sec = T.sec ∧ (time b).nsec ≤ T.nsec)
    · have hn : decide (tsNewer (time b) T) = false := by
        simp only [decide_eq_false_iff_not]
        unfold tsNewer
        omega
      simp [newerBuffersAvailableAux, if_pos h, List.takeWhile_cons, hn]
    · have hn : decide (tsNewer (time b) T) = true := by
        simp only [decide_eq_true_eq]
        unfold tsNewer
        omega
      simp [newerBuffersAvailableAux, if_neg h, List.takeWhile_cons, hn, ih]

/-- C8: count_newer_than equals the length of the maximal prefix of the
ordering (walked from the front) whose entries' timestamps strictly exceed
the threshold, comparing (seconds, nanoseconds) lexicographically; the walk
stops at the first entry not strictly newer and later entries are not
counted. -/
theorem newerBuffersAvailable_eq_specNewerCount (s : PoolState) (T : Timespec) :
    newerBuffersAvailable s T = specNewerCount s T := by
  unfold newerBuffersAvailable specNewerCount
  exact newerAux_eq_takeWhile s.time T s.seq

theorem newerAux_anti (time : Nat → Timespec) (T1 T2 : Timespec) (h : tsLe T1 T2)
    (l : List Nat) :
    newerBuffersAvailableAux time T2 l ≤ newerBuffersAvailableAux time T1 l := by
  induction l with
  | nil => exact Nat.le_refl 0
  | cons b rest ih =>
    unfold newerBuffersAvailableAux
    by_cases h2 : (time b).sec < T2.sec ∨ ((time b).sec = T2.sec ∧ (time b).nsec ≤ T2.nsec)
    · rw [if_pos h2]
      exact Nat.zero_le _
    · rw [if_neg h2]
      have h1 : ¬ ((time b).sec < T1.sec ∨
          ((time b).sec = T1.sec ∧ (time b).nsec ≤ T1.nsec)) := by
        unfold tsLe at h
        omega
      rw [if_neg h1]
      omega

/-- C9: for a fixed pool state, count_newer_than is monotonically
non-increasing as the threshold timestamp increases: T1 ≤ T2 implies
count_newer_than(T2) ≤ count_newer_than(T1). -/
theorem newerBuffersAvailable_mono (s : PoolState) (T1 T2 : Timespec)
    (h : tsLe T1 T2) :
    newerBuffersAvailable s T2 ≤ newerBuffersAvailable s T1 :=
  newerAux_anti s.time T1 T2 h s.seq

theorem newerBuffersAvailable_mono_witness :
    tsLe ⟨1, 0⟩ ⟨2, 500⟩ ∧
    newerBuffersAvailable demoPool ⟨2, 500⟩ ≤ newerBuffersAvailable demoPool ⟨1, 0⟩ :=
  ⟨by decide, newerBuffersAvailable_mono demoPool ⟨1, 0⟩ ⟨2, 500⟩ (by decide)⟩

/-! ## Lifecycle: finish and re-init (C4, C5) -/

theorem finish_eq (s : Session) :
    finish s = ⟨-1, false, [], 0, s.timelySorted, s.nextId⟩ := by
  obtain ⟨fd, ctr, bufs, bs, ts, ni⟩ := s
  simp only [finish]
  split_ifs <;> simp_all

/-- C4: finish is idempotent.  On every session state — running, partially
initialized, or already finished — a second finish leaves exactly the state a
single finish produces: capture loop stopped, device handle closed (-1),
buffer storage freed and the backing list emptied, buffer size zeroed. -/
theorem finish_idempotent (s : Session) : finish (finish s) = finish s := by
  simp [finish_eq]

theorem allocBuffers_timelySorted (n : Nat) : ∀ s : Session,
    (allocBuffers s n).timelySorted = s.timelySorted ++ mintedIds s.nextId n := by
  induction n with
  | zero => intro s; simp [allocBuffers, mintedIds]
  | succ n ih =>
    intro s
    show (allocBuffers _ n).timelySorted = _
    rw [ih]
    simp [mintedIds]

theorem mintedIds_length (i n : Nat) : (mintedIds i n).length = n := by
  induction n generalizing i with
  | zero => rfl
  | succ n ih => simp [mintedIds, ih]

theorem lockFirstNBuffersAux_eq (l : List Nat) : ∀ (n : Nat) (rc : Nat → Int),
    lockFirstNBuffersAux l n rc =
      (l.take n, fun x => rc x + ((l.take n).count x : Int)) := by
  induction l with
  | nil =>
    intro n rc
    cases n <;> simp [lockFirstNBuffersAux]
  | cons b rest ih =>
    intro n rc
    cases n with
    | zero => simp [lockFirstNBuffersAux]
    | succ n =>
      simp only [lockFirstNBuffersAux]
      rw [ih]
      simp only [List.take_succ_cons]
      refine Prod.ext rfl ?_
      funext x
      by_cases hx : x = b
      · subst hx
        simp only [List.count_cons_self, if_pos rfl]
        push_cast
        ring
      · have hbx : ¬ b = x := fun hh => hx hh.symm
        simp [if_neg hx, List.count_cons, hbx]

/-! ## release / unlock (C7) -/

theorem unlockScan_not_mem (r : Nat) : ∀ (l : List Nat) (rc : Nat → Int) (bad : Bool),
    r ∉ l → unlockScan l r rc bad = (rc, bad) := by
  intro l
  induction l with
  | nil => intro rc bad _; rfl
  | cons b rest ih =>
    intro rc bad hr
    have hbr : ¬ b = r := fun hh => hr (hh ▸ List.mem_cons_self b rest)
    have hrrest : r ∉ rest := fun hh => hr (List.mem_cons_of_mem b hh)
    simp only [unlockScan, if_neg hbr]
    exact ih rc bad hrrest

theorem unlockScan_mem (r : Nat) : ∀ (l : List Nat) (rc : Nat → Int) (bad : Bool),
    l.Nodup → r ∈ l →
    unlockScan l r rc bad =
      (fun x => if x = r then rc x - 1 else rc x, bad || decide (rc r - 1 < 0)) := by
  intro l
  induction l with
  | nil => intro rc bad _ hr; cases hr
  | cons b rest ih =>
    intro rc bad hnd hr
    by_cases hbr : b = r
    · subst hbr
      have hnotrest : b ∉ rest := (List.nodup_cons.mp hnd).1
      show (if b = b then
          unlockScan rest b (fun x => if x = b then rc x - 1 else rc x)
            (bad || decide ((fun x => if x = b then rc x - 1 else rc x) b < 0))
        else unlockScan rest b rc bad) = _
      rw [if_pos rfl]
      rw [unlockScan_not_mem b rest _ _ hnotrest]
      dsimp only
      rw [if_pos rfl]
    · have hrrest : r ∈ rest := (List.mem_cons.mp hr).resolve_left
        (fun hh => hbr hh.symm)
      simp only [unlockScan, if_neg hbr]
      exact ih rc bad (List.nodup_cons.mp hnd).2 hrrest

theorem unlockRefs_decrements (seq : List Nat) (hnd : seq.Nodup) :
    ∀ (refs : List Nat) (rc : Nat → Int) (bad : Bool),
      (∀ r ∈ refs, r ∈ seq) →
      ∀ x, (unlockRefs seq refs rc bad).1 x = rc x - (refs.count x : Int) := by
  intro refs
  induction refs with
  | nil => intro rc bad _ x; simp [unlockRefs]
  | cons r rs ih =>
    intro rc bad hmem x
    have hrseq : r ∈ seq := hmem r (List.mem_cons_self r rs)
    simp only [unlockRefs]
    rw [unlockScan_mem r seq rc bad hnd hrseq]
    dsimp only
    rw [ih _ _ (fun a ha => hmem a (List.mem_cons_of_mem r ha)) x]
    by_cases hx : x = r
    · subst hx
      rw [if_pos rfl, List.count_cons_self]
      push_cast
      ring
    · have hrx : ¬ r = x := fun hh => hx hh.symm
      rw [if_neg hx, List.count_cons, if_neg (by simpa using hrx)]
      push_cast
      ring

theorem unlockRefs_disciplined (seq : List Nat) (hnd : seq.Nodup) :
    ∀ (refs out : List Nat) (rc : Nat → Int),
      (∀ x, refs.count x ≤ out.count x) →
      (∀ x ∈ out, x ∈ seq) →
      (∀ x, rc x = (out.count x : Int)) →
      (unlockRefs seq refs rc false).2 = false ∧
      ∀ x, (unlockRefs seq refs rc false).1 x = ((out.diff refs).count x : Int) := by
  intro refs
  induction refs with
  | nil =>
    intro out rc _ _ hrc
    exact ⟨rfl, by simpa [List.diff_nil] using hrc⟩
  | cons r rs ih =>
    intro out rc hsub hmem hrc
    have hcount : rs.count r + 1 ≤ out.count r := by
      have := hsub r
      rwa [List.count_cons_self] at this
    have hrout : r ∈ out := List.count_pos_iff.mp (by omega)
    have hrseq : r ∈ seq := hmem r hrout
    have hnoassert : decide (rc r - 1 < 0) = false := by
      rw [decide_eq_false_iff_not, hrc r]
      have h1 : 1 ≤ out.count r := by omega
      omega
    have hsub2 : ∀ x, rs.count x ≤ (out.erase r).count x := by
      intro x
      by_cases hx : x = r
      · subst hx
        rw [List.count_erase_self]
        omega
      · rw [List.count_erase_of_ne hx]
        have := hsub x
        rw [List.count_cons, if_neg (by simpa using fun hh : r = x => hx hh.symm)] at this
        omega
    have hmem2 : ∀ x ∈ out.erase r, x ∈ seq := by
      intro x hx
      exact hmem x (List.mem_of_mem_erase hx)
    have hrc2 : ∀ x, (if x = r then rc x - 1 else rc x) = ((out.erase r).count x : Int) := by
      intro x
      by_cases hx : x = r
      · subst hx
        rw [if_pos rfl, List.count_erase_self, hrc x]
        have h1 : 1 ≤ out.count x := by omega
        push_cast [h1]
        ring
      · rw [if_neg hx, List.count_erase_of_ne hx, hrc x]
    have hres := ih (out.erase r) (fun x => if x = r then rc x - 1 else rc x)
      hsub2 hmem2 hrc2
    simp only [unlockRefs]
    rw [unlockScan_mem r seq rc false hnd hrseq]
    dsimp only
    rw [hnoassert, List.diff_cons]
    exact hres

theorem rwInv_applyRWs (seq : List Nat) (hnd : seq.Nodup) :
    ∀ (ops : List RWOp) (st : RWState), rwInv seq st →
      disciplined st ops = true → rwInv seq (applyRWs st ops) := by
  intro ops
  induction ops with
  | nil => intro st h _; exact h
  | cons op rest ih =>
    intro st h hd
    obtain ⟨hseq, hbad, hmem, hrc⟩ := h
    cases op with
    | borrow n =>
      refine ih (applyRW st (RWOp.borrow n)) ⟨?_, ?_, ?_, ?_⟩ hd
      · exact hseq
      · exact hbad
      · intro x hx
        simp only [applyRW, lockFirstNBuffersAux_eq] at hx
        rcases List.mem_append.mp hx with hx1 | hx1
        · exact hmem x hx1
        · exact hseq ▸ List.take_subset n st.seq hx1
      · intro x
        simp only [applyRW, lockFirstNBuffersAux_eq]
        rw [hrc x, List.count_append]
        push_cast
        ring
    | release refs =>
      simp only [disciplined, Bool.and_eq_true] at hd
      obtain ⟨hsubC, hd2⟩ := hd
      have hsub : ∀ x, refs.count x ≤ st.outstanding.count x := by
        intro x
        by_cases hx : x ∈ refs
        · have := (List.all_eq_true.mp hsubC) x hx
          simpa using this
        · rw [List.count_eq_zero_of_not_mem hx]
          exact Nat.zero_le _
      have hkey := unlockRefs_disciplined seq hnd refs st.outstanding
        st.readerCount hsub hmem hrc
      refine ih (applyRW st (RWOp.release refs)) ⟨?_, ?_, ?_, ?_⟩ hd2
      · exact hseq
      · show (unlockRefs st.seq refs st.readerCount st.bad).2 = false
        rw [hseq, hbad]
        exact hkey.1
      · intro x hx
        exact hmem x (List.diff_subset st.outstanding refs hx)
      · intro x
        show (unlockRefs st.seq refs st.readerCount st.bad).1 x = _
        rw [hseq, hbad]
        exact hkey.2 x

/-- C7: unlock decrements each referenced buffer's reader count by exactly
one per released reference; along every disciplined trace of
lockFirstNBuffers/unlock calls (each release a sub-multiset of the
outstanding borrows) no reader count ever goes negative and the assert never
fires; and a double release — releasing a buffer whose count is already 0 —
drives the count negative and fires assert(readerCount >= 0) rather than
being silently swallowed. -/
theorem unlock_release_spec :
    (∀ (seq refs : List Nat) (rc : Nat → Int) (bad : Bool), seq.Nodup →
      (∀ r ∈ refs, r ∈ seq) →
      ∀ x, (unlockRefs seq refs rc bad).1 x = rc x - (refs.count x : Int)) ∧
    (∀ (seq : List Nat) (ops : List RWOp), seq.Nodup →
      disciplined (initRW seq) ops = true →
      (applyRWs (initRW seq) ops).bad = false ∧
      ∀ x, 0 ≤ (applyRWs (initRW seq) ops).readerCount x) ∧
    (unlockRefs [0, 1] [1] (fun _ => 0) false).2 = true := by
  refine ⟨?_, ?_, by decide⟩
  · intro seq refs rc bad hnd hmem x
    exact unlockRefs_decrements seq hnd refs rc bad hmem x
  · intro seq ops hnd hd
    have h0 : rwInv seq (initRW seq) := by
      refine ⟨rfl, rfl, ?_, ?_⟩
      · intro x hx
        cases hx
      · intro x
        simp [initRW]
    have hfin := rwInv_applyRWs seq hnd ops (initRW seq) h0 hd
    obtain ⟨_, hbad, _, hrc⟩ := hfin
    refine ⟨hbad, ?_⟩
    intro x
    rw [hrc x]
    exact Int.ofNat_nonneg _

theorem unlock_release_witness :
    ([5, 6] : List Nat).Nodup ∧
    disciplined (initRW [5, 6]) demoRWOps = true ∧
    (applyRWs (initRW [5, 6]) demoRWOps).bad = false ∧
    0 ≤ (applyRWs (initRW [5, 6]) demoRWOps).readerCount 5 := by
  have h := unlock_release_spec.2.1 [5, 6] demoRWOps (by decide) (by decide)
  exact ⟨by decide, by decide, h.1, h.2 5⟩

/-! ## Capture-loop contention (C1) -/

/-- C1: the claim fails on the code, code-bug direction.  In the contended
state (oldest buffer held by a reader, mutex free) the capture iteration
takes the retry branch, but the source's `continue` skips the unlock, so the
retry leaves the mutex held; the very next iteration's lock() is then taken
on a non-recursive mutex the thread already holds and the loop deadlocks —
it does not stay live as the claim states. -/
theorem captureIter_contention_deadlock :
    0 < contendedState.readerCount 1 ∧
    contendedState.seq.getLast? = some 1 ∧
    contendedState.lockHeld = false ∧
    captureIter contendedState ⟨5, 0⟩ = IterOutcome.retry contendedLocked ∧
    contendedLocked.lockHeld = true ∧
    captureIter contendedLocked ⟨6, 0⟩ = IterOutcome.deadlock :=
  ⟨by decide, rfl, rfl, rfl, rfl, rfl⟩

/-! ## Period estimator (C2) -/

/-- C2: the claim fails on the code, code-bug direction.  For the recorded
timestamps 0s, 1s, 3s (intervals 1 and 2, mean 3/2) the source's
addedSquares loop overwrites instead of accumulating, so the quantity under
the square root is (2 - 3/2)^2 / 2 = 1/8 — only the last interval
contributes — while the spec's sum over all intervals gives
((1 - 3/2)^2 + (2 - 3/2)^2) / 2 = 1/4.  The returned mean is the sample mean
as claimed. -/
theorem periodStats_divergence :
    codeMean [0, 1, 3] = 3 / 2 ∧
    specVariance [0, 1, 3] = 1 / 4 ∧
    codeVariance [0, 1, 3] = 1 / 8 ∧
    codeVariance [0, 1, 3] ≠ specVariance [0, 1, 3] := by
  refine ⟨?_, ?_, ?_, ?_⟩ <;>
    norm_num [codeMean, codeVariance, specVariance, meanOf, intervalsOf,
      codeAddedSquares, specSumSquares]

/-! ## Driver-format sanitation (C10) -/

/-- C10 counterexample: the fields are __u32 and the arithmetic wraps at
2^32, so for a (buggy) driver-returned width of 2^31 with stride 2 the
computed stride stays 2 even though the claim's hypothesis 2 < 2·2^31 holds
and the claim demands max(2, 2·2^31) = 2^32. -/
theorem sanitizeFormat_overflow_counterexample :
    2 < 2 ^ 31 * 2 ∧
    (sanitizeFormat (2 ^ 31) 1 2 0).1 = 2 ∧
    (sanitizeFormat (2 ^ 31) 1 2 0).1 ≠ max 2 (2 ^ 31 * 2) := by
  refine ⟨by norm_num, ?_, ?_⟩ <;> simp [sanitizeFormat, M32]

/-- C10 (amended): for device-returned width w, height h, stride s and image
size z, provided the recomputations do not overflow the unsigned 32-bit
arithmetic (w·2 < 2^32 and corrected-stride·h < 2^32), init sets the stride
to max(s, 2·w), the image size to max(z, corrected stride · h), and every
one of the buffersCount allocated buffers gets capacity equal to that
corrected image size. -/
theorem sanitizeFormat_spec (w h s z n : Nat)
    (hw : w * 2 < M32) (hsh : max s (w * 2) * h < M32)
    (_htrigger : s < w * 2 ∨ z < s * h) :
    sanitizeFormat w h s z = (max s (w * 2), max z (max s (w * 2) * h)) ∧
    ∀ c ∈ allocCapacities n w h s z, c = max z (max s (w * 2) * h) := by
  have hs1 : (if s < w * 2 % M32 then w * 2 % M32 else s) = max s (w * 2) := by
    rw [Nat.mod_eq_of_lt hw]
    by_cases hc : s < w * 2
    · rw [if_pos hc, Nat.max_eq_right (Nat.le_of_lt hc)]
    · rw [if_neg hc, Nat.max_eq_left (Nat.le_of_not_lt hc)]
  have hkey : sanitizeFormat w h s z = (max s (w * 2), max z (max s (w * 2) * h)) := by
    unfold sanitizeFormat
    dsimp only
    rw [hs1, Nat.mod_eq_of_lt hsh]
    refine Prod.ext rfl ?_
    by_cases hc : z < max s (w * 2) * h
    · rw [if_pos hc, Nat.max_eq_right (Nat.le_of_lt hc)]
    · rw [if_neg hc, Nat.max_eq_left (Nat.le_of_not_lt hc)]
  refine ⟨hkey, ?_⟩
  intro c hc
  have := List.eq_of_mem_replicate hc
  rw [this, hkey]

theorem sanitizeFormat_witness :
    352 * 2 < M32 ∧
    max 2 (352 * 2) * 288 < M32 ∧
    (2 < 352 * 2 ∨ 0 < 2 * 288) ∧
    sanitizeFormat 352 288 2 0 = (704, 202752) ∧
    ∀ c ∈ allocCapacities 4 352 288 2 0, c = 202752 := by
  have h := sanitizeFormat_spec 352 288 2 0 4 (by decide) (by decide)
    (Or.inl (by decide))
  refine ⟨by decide, by decide, Or.inl (by decide), h.1.trans (by decide), ?_⟩
  intro c hc
  exact (h.2 c hc).trans (by decide)

/-! ## Entry conservation under interleavings (C3) -/

theorem stepOp_entries_perm (s : PoolState) (op : PoolOp) :
    (poolEntries (stepOp s op)).Perm (poolEntries s) := by
  obtain ⟨seq, rc, time, claimed⟩ := s
  cases op with
  | borrow n => exact List.Perm.refl _
  | release refs => exact List.Perm.refl _
  | countNewer t => exact List.Perm.refl _
  | claim =>
    cases claimed with
    | some b => exact List.Perm.refl _
    | none =>
      show (poolEntries (match seq.getLast? with
        | none => _
        | some b => if 0 < rc b then _ else _)).Perm _
      cases hl : seq.getLast? with
      | none => exact List.Perm.refl _
      | some b =>
        dsimp only
        by_cases hr : 0 < rc b
        · rw [if_pos hr]
        · rw [if_neg hr]
          show (seq.dropLast ++ [b]).Perm (seq ++ Option.toList none)
          rw [List.dropLast_append_getLast? b (Option.mem_def.mpr hl)]
          simp
  | publish t =>
    cases claimed with
    | none => exact List.Perm.refl _
    | some b =>
      show ((b :: seq) ++ Option.toList none).Perm (seq ++ [b])
      simp only [Option.toList, List.append_nil]
      exact (List.perm_append_singleton b seq).symm

theorem applyOps_entries_perm (ops : List PoolOp) : ∀ s : PoolState,
    (poolEntries (applyOps s ops)).Perm (poolEntries s) := by
  induction ops with
  | nil => intro s; exact List.Perm.refl _
  | cons op rest ih =>
    intro s
    exact (ih (stepOp s op)).trans (stepOp_entries_perm s op)

/-- C3 (amended): after init allocates buffersCount distinct buffers, every
interleaving of borrow_newest, release, count_newer_than and the two halves
of a capture iteration (claim, publish) preserves the full entry multiset:
the deque entries together with the at most one claimed buffer are always a
permutation of the initial buffers — entries are reordered, never created,
destroyed or duplicated.  The deque itself holds exactly buffersCount
entries whenever no claim is in flight, and exactly buffersCount - 1 while a
claimed buffer is being filled by a device read. -/
theorem pool_entries_invariant (ids : List Nat) (ops : List PoolOp)
    (hnd : ids.Nodup) :
    ((poolEntries (applyOps (initPool ids) ops)).Perm ids) ∧
    (poolEntries (applyOps (initPool ids) ops)).Nodup ∧
    (poolEntries (applyOps (initPool ids) ops)).length = ids.length ∧
    ((applyOps (initPool ids) ops).claimed = none →
      (applyOps (initPool ids) ops).seq.length = ids.length) ∧
    ∀ b, (applyOps (initPool ids) ops).claimed = some b →
      (applyOps (initPool ids) ops).seq.length + 1 = ids.length := by
  have hperm : (poolEntries (applyOps (initPool ids) ops)).Perm ids := by
    have h0 : poolEntries (initPool ids) = ids := by
      simp [poolEntries, initPool, Option.toList]
    have := applyOps_entries_perm ops (initPool ids)
    rw [h0] at this
    exact this
  refine ⟨hperm, hperm.nodup_iff.mpr hnd, hperm.length_eq, ?_, ?_⟩
  · intro hc
    have : poolEntries (applyOps (initPool ids) ops)
        = (applyOps (initPool ids) ops).seq := by
      simp [poolEntries, hc, Option.toList]
    rw [← this, hperm.length_eq]
  · intro b hc
    have : (poolEntries (applyOps (initPool ids) ops)).length
        = (applyOps (initPool ids) ops).seq.length + 1 := by
      simp [poolEntries, hc, Option.toList]
    rw [← hperm.length_eq, this]

/-- C3 counterexample: the claim as stated — the time-ordered sequence holds
exactly buffersCount entries before, during and after every step, including
while a claimed buffer is being filled — fails on the code: with two buffers
allocated by init, after the claim half of a capture iteration (the device
read now in flight) the deque holds one entry, not two. -/
theorem pool_entries_counterexample :
    (applyOps (initPool [0, 1]) [PoolOp.claim]).seq.length ≠ 2 := by
  decide

theorem pool_entries_invariant_witness :
    ([0, 1] : List Nat).Nodup ∧
    (poolEntries (applyOps (initPool [0, 1]) [PoolOp.claim])).length = 2 ∧
    (∀ b, (applyOps (initPool [0, 1]) [PoolOp.claim]).claimed = some b →
      (applyOps (initPool [0, 1]) [PoolOp.claim]).seq.length + 1 = 2) := by
  have h := pool_entries_invariant [0, 1] [PoolOp.claim] (by decide)
  exact ⟨by decide, h.2.2.1, h.2.2.2.2⟩

/-! ## borrow_newest (C6) -/

/-- C6: borrow_newest(n) returns min(n, pool size) buffer references taken
from the front of the ordering in newest-first order, increments each
returned buffer's reader count by exactly 1, and leaves every other buffer's
reader count, the ordering itself, the timestamps and the claim slot
unchanged. -/
theorem lockFirstNBuffers_spec (s : PoolState) (n : Nat) (hnd : s.seq.Nodup) :
    (lockFirstNBuffers s n).1 = s.seq.take n ∧
    (lockFirstNBuffers s n).1.length = min n s.seq.length ∧
    (lockFirstNBuffers s n).2.seq = s.seq ∧
    (lockFirstNBuffers s n).2.time = s.time ∧
    (lockFirstNBuffers s n).2.claimed = s.claimed ∧
    (∀ b ∈ (lockFirstNBuffers s n).1,
      (lockFirstNBuffers s n).2.readerCount b = s.readerCount b + 1) ∧
    ∀ b, b ∉ (lockFirstNBuffers s n).1 →
      (lockFirstNBuffers s n).2.readerCount b = s.readerCount b := by
  have key : lockFirstNBuffers s n =
      (s.seq.take n,
        { s with readerCount := fun x => s.readerCount x + ((s.seq.take n).count x : Int) }) := by
    simp [lockFirstNBuffers, lockFirstNBuffersAux_eq]
  rw [key]
  refine ⟨rfl, by simp [List.length_take], rfl, rfl, rfl, ?_, ?_⟩
  · intro b hb
    have h1 : (s.seq.take n).count b = 1 :=
      List.count_eq_one_of_mem (hnd.sublist (List.take_sublist n s.seq)) hb
    show s.readerCount b + ((s.seq.take n).count b : Int) = s.readerCount b + 1
    simp [h1]
  · intro b hb
    have h0 : (s.seq.take n).count b = 0 := List.count_eq_zero_of_not_mem hb
    show s.readerCount b + ((s.seq.take n).count b : Int) = s.readerCount b
    simp [h0]

theorem lockFirstNBuffers_witness :
    demoPool.seq.Nodup ∧
    (lockFirstNBuffers demoPool 2).1 = [3, 2] ∧
    demoPool.time 3 = ⟨3, 0⟩ ∧
    demoPool.time 2 = ⟨2, 0⟩ ∧
    (lockFirstNBuffers demoPool 2).2.readerCount 3 = 1 ∧
    (lockFirstNBuffers demoPool 2).2.readerCount 2 = 1 ∧
    (lockFirstNBuffers demoPool 2).2.readerCount 1 = 0 ∧
    (lockFirstNBuffers demoPool 2).2.seq = demoPool.seq := by
  have h := lockFirstNBuffers_spec demoPool 2 (by decide)
  refine ⟨by decide, h.1.trans (by rfl), by decide, by decide, ?_, ?_, ?_, h.2.2.1⟩
  · exact (h.2.2.2.2.2.1 3 (by rw [h.1]; decide)).trans (by decide)
  · exact (h.2.2.2.2.2.1 2 (by rw [h.1]; decide)).trans (by decide)
  · exact (h.2.2.2.2.2.2 1 (by rw [h.1]; decide)).trans (by decide)

/-- C5: finish frees each buffer's byte storage and empties the backing
buffer list, but leaves the time-ordered sequence m_timelySortedBuffers
unchanged — it still holds the old entries — and a subsequent
buffer-allocation pass of init appends its buffersCount new entries to that
ordering rather than starting from an empty one. -/
theorem finish_timelySorted_frame (s : Session) (n : Nat) :
    (finish s).buffers = [] ∧
    (finish s).timelySorted = s.timelySorted ∧
    (allocBuffers (finish s) n).timelySorted = s.timelySorted ++ mintedIds s.nextId n ∧
    (allocBuffers (finish s) n).timelySorted.length = s.timelySorted.length + n := by
  refine ⟨by simp [finish_eq], by simp [finish_eq], ?_, ?_⟩
  · rw [allocBuffers_timelySorted n (finish s), finish_eq]
  · rw [allocBuffers_timelySorted n (finish s), finish_eq]
    simp [mintedIds_length]
